import Mathlib

/-!
Shallow embedding of the `imap_thingy` filtering core
(`imap_thingy/filters/criteria/base.py`, `criteria/duplicate.py`,
`filters/actions/base.py`, `filters/actions/imap.py`,
`filters/criterion.py`, `events_handler.py`).

The IMAP client (`imapclient.IMAPClient`) and the message parser
(`mailparser`) are external collaborators; they are modelled as an
abstract connection state (`Conn`) providing `search`, per-id fetch
data, and a parse function.  Python `None`/falsiness on queries is
modelled by `Option` plus an explicit truthiness predicate, because
the source branches on truthiness (`if self.imap_query`), under which
an empty list behaves like `None`.
-/

namespace ImapThingy

/-- An IMAP search query: `list[str | list[Any]]` in the source.
Items are strings or nested sub-queries. -/
inductive QueryItem where
  | atom : String → QueryItem
  | sub : List QueryItem → QueryItem

abbrev Query := List QueryItem

/-- Python truthiness of an optional list: `None` and `[]` are falsy. -/
def qTruthy : Option Query → Bool
  | none => false
  | some q => !q.isEmpty

/-- A parsed message as produced by the parser (`mailparser`) and used by
the criteria: `message_id`, `subject`, `from_` (a list of
(display-name, address) tuples, modelled as string lists since the
source indexes them by position and guards on tuple length), `date`
(already stringified where the source applies `str`), and the IMAP
flags the source attaches as `_imap_flags` after parsing. -/
structure Mail where
  message_id : Option String
  subject : Option String
  from_ : List (List String)
  date : String
  imapFlags : List String := []
deriving Repr, DecidableEq

/-- One entry of an IMAP `fetch` response: the `BODY[]` item (absent or
raw bytes, bytes modelled as `String`) and the `FLAGS` item
(defaulted to `[]` by `data.get(b"FLAGS", [])`). -/
structure FetchItem where
  body : Option String
  flags : List String := []
deriving Repr, DecidableEq

/-- The abstract IMAP connection: the server's `search`, the per-id
`fetch` response (none = id absent from the response), and the external
parser (`mailparser.parse_from_bytes`; none = the parse raises). -/
structure Conn where
  searchFn : Query → List Nat
  fetchFn : Nat → Option FetchItem
  parse : String → Option Mail

/-- The fetched-and-parsed message for one id, if any: absent or empty
`BODY[]` data is skipped, a failed parse is skipped, and on success the
fetch flags are attached to the parsed message (`msg._imap_flags = flags`
in `_get_mail`). -/
def parsedAt (conn : Conn) (msgid : Nat) : Option Mail :=
  match conn.fetchFn msgid with
  | none => none
  | some data =>
    match data.body with
    | none => none
    | some b =>
      if b = "" then none
      else
        match conn.parse b with
        | none => none
        | some m => some { m with imapFlags := data.flags }

/-- `_get_mail(client, imap_query)`: search, fetch the resulting ids,
and keep the (id, parsed message) pairs of the messages whose body is
present and parses, in response order. -/
def getMail (conn : Conn) (imap_query : Query) : List (Nat × Mail) :=
  (conn.searchFn imap_query).filterMap fun msgid =>
    (parsedAt conn msgid).map fun m => (msgid, m)

/-- A filter criterion: the client-side predicate `func`, the optional
server-side `imap_query`, and whether the object is an instance of the
`EfficientCriterion` subclass (which overrides `filter` and affects the
`isinstance` dispatch in the combination operators). -/
structure Criterion where
  func : Mail → Bool
  imap_query : Option Query
  efficient : Bool := false

/-- The query `Criterion.filter` actually searches with: the criterion's
own query when truthy, else `["ALL"]`. -/
def Criterion.usedQuery (c : Criterion) : Query :=
  if qTruthy c.imap_query then c.imap_query.getD [] else [QueryItem.atom "ALL"]

/-- Operations issued against the connection, used to state which server
calls an evaluation performs. -/
inductive MailOp where
  | selectFolder : String → Bool → MailOp
  | search : Query → MailOp
  | fetch : List Nat → MailOp
  | addFlags : List Nat → List String → MailOp
  | removeFlags : List Nat → List String → MailOp
  | move : List Nat → String → MailOp
  | expunge : List Nat → MailOp

/-- Whether an operation mutates message state on the server. -/
def MailOp.isMut : MailOp → Bool
  | .addFlags _ _ => true
  | .removeFlags _ _ => true
  | .move _ _ => true
  | .expunge _ => true
  | _ => false

/-- `Criterion.filter(connection)` together with the trace of server
calls it issues.  `EfficientCriterion.filter` (the `efficient` case)
issues a single `search` with the criterion's query and returns its
result as-is; the general `Criterion.filter` searches (defaulting to
`["ALL"]`), fetches, parses, and keeps the ids whose predicate holds. -/
def Criterion.filterT (c : Criterion) (conn : Conn) : List MailOp × List Nat :=
  if c.efficient then
    ([MailOp.search (c.imap_query.getD [])], conn.searchFn (c.imap_query.getD []))
  else
    let q := c.usedQuery
    let msgs := getMail conn q
    ([MailOp.search q, MailOp.fetch (conn.searchFn q)],
     (msgs.filter fun p => c.func p.2).map Prod.fst)

/-- The list of message ids returned by `Criterion.filter(connection)`. -/
def Criterion.filter (c : Criterion) (conn : Conn) : List Nat :=
  (c.filterT conn).2

/-- The query combination performed by `Criterion.__and__`: concatenate
when both queries are truthy, else take `self`'s if truthy, else
`other`'s as-is. -/
def andQuery (q1 q2 : Option Query) : Option Query :=
  if qTruthy q1 && qTruthy q2 then some (q1.getD [] ++ q2.getD [])
  else if qTruthy q1 then q1 else q2

/-- The query combination performed by `Criterion.__or__`:
`["OR", q1, q2]` when both are truthy, else `None`. -/
def orQuery (q1 q2 : Option Query) : Option Query :=
  if qTruthy q1 && qTruthy q2 then
    some [QueryItem.atom "OR", QueryItem.sub (q1.getD []), QueryItem.sub (q2.getD [])]
  else none

/-- The query produced by `Criterion.__invert__`: `["NOT", q]` when the
query is truthy, else `None`. -/
def notQuery (q : Option Query) : Option Query :=
  if qTruthy q then some [QueryItem.atom "NOT", QueryItem.sub (q.getD [])] else none

/-- `Criterion.__and__`: predicate conjunction plus `andQuery`; the
result is a plain `Criterion`. -/
def Criterion.baseAnd (a b : Criterion) : Criterion :=
  ⟨fun m => a.func m && b.func m, andQuery a.imap_query b.imap_query, false⟩

/-- `Criterion.__or__`: predicate disjunction plus `orQuery`. -/
def Criterion.baseOr (a b : Criterion) : Criterion :=
  ⟨fun m => a.func m || b.func m, orQuery a.imap_query b.imap_query, false⟩

/-- `Criterion.__invert__`: predicate negation plus `notQuery`. -/
def Criterion.baseNot (a : Criterion) : Criterion :=
  ⟨fun m => !a.func m, notQuery a.imap_query, false⟩

/-- `_make_efficient`: raises `ValueError` (modelled as `none`) when the
query is `None`, else re-tags the criterion as efficient. -/
def makeEfficient (c : Criterion) : Option Criterion :=
  match c.imap_query with
  | none => none
  | some q => some { c with imap_query := some q, efficient := true }

/-- Dynamic dispatch of `a & b`: `EfficientCriterion.__and__` wraps the
base result with `_make_efficient` exactly when both operands are
efficient (`self` by dispatch, `other` by `isinstance`); otherwise the
base `Criterion.__and__` result is returned. -/
def Criterion.opAnd (a b : Criterion) : Option Criterion :=
  if a.efficient && b.efficient then makeEfficient (a.baseAnd b)
  else some (a.baseAnd b)

/-- Dynamic dispatch of `a | b`, analogous to `Criterion.opAnd`. -/
def Criterion.opOr (a b : Criterion) : Option Criterion :=
  if a.efficient && b.efficient then makeEfficient (a.baseOr b)
  else some (a.baseOr b)

/-- Dynamic dispatch of `~a`: `EfficientCriterion.__invert__` always
wraps with `_make_efficient`. -/
def Criterion.opNot (a : Criterion) : Option Criterion :=
  if a.efficient then makeEfficient a.baseNot
  else some a.baseNot

/-- `SelectAll()`: an efficient criterion with predicate `λ _, True` and
query `["ALL"]`. -/
def SelectAll : Criterion :=
  ⟨fun _ => true, some [QueryItem.atom "ALL"], true⟩

/-- The match-everything criterion evaluated through the general
`Criterion.filter` path: always-true predicate, no query (so the search
defaults to `["ALL"]`). -/
def matchEverything : Criterion :=
  ⟨fun _ => true, none, false⟩

/-- An email account (`accounts.py`); only the fields the filtering core
reads are modelled: the display name and the cached IMAP connection. -/
structure EMailAccount where
  name : String
  connection : Conn

/-- An action (`actions/base.py`): a function issuing server operations
for a batch of message ids on an account, plus a display name. -/
structure Action where
  func : EMailAccount → List Nat → List MailOp
  name : String := "<no name>"

/-- `Action.execute(account, msgids)` simply invokes the underlying
function. -/
def Action.execute (a : Action) (account : EMailAccount) (msgids : List Nat) : List MailOp :=
  a.func account msgids

/-- `Action.__and__`: the combined action runs `self.func` then
`other.func`, each on the full id list; combined name is
`"name1; name2"`. -/
def Action.and (a b : Action) : Action :=
  ⟨fun account msg => a.func account msg ++ b.func account msg,
   a.name ++ "; " ++ b.name⟩

/-- `MoveTo(folder)`: one `move` call for the whole batch. -/
def MoveTo (folder : String) : Action :=
  ⟨fun _ msgids => [MailOp.move msgids folder], "move to " ++ folder⟩

/-- `MarkAsRead()`: one `add_flags` call with `\Seen` for the whole
batch. -/
def MarkAsRead : Action :=
  ⟨fun _ msgids => [MailOp.addFlags msgids ["\\Seen"]], "mark as read"⟩

/-- `MarkAsUnread()`: one `remove_flags` call with `\Seen`. -/
def MarkAsUnread : Action :=
  ⟨fun _ msgids => [MailOp.removeFlags msgids ["\\Seen"]], "mark as unread"⟩

/-- `Star()`: one `add_flags` call with `\Flagged`. -/
def Star : Action :=
  ⟨fun _ msgids => [MailOp.addFlags msgids ["\\Flagged"]], "star"⟩

/-- `Unstar()`: one `remove_flags` call with `\Flagged`. -/
def Unstar : Action :=
  ⟨fun _ msgids => [MailOp.removeFlags msgids ["\\Flagged"]], "unstar"⟩

/-- `CriterionFilter` (`filters/criterion.py`): one account, a
criterion, an action, and a base folder. -/
structure CriterionFilter where
  account : EMailAccount
  criterion : Criterion
  action : Action
  base_folder : String := "INBOX"

/-- `CriterionFilter.apply(dry_run)` as the trace of server operations
it issues: select the folder read-write, evaluate the criterion, and —
only when ids matched and not in dry-run mode — execute the action on
the matched ids. -/
def CriterionFilter.apply (f : CriterionFilter) (dry_run : Bool) : List MailOp :=
  MailOp.selectFolder f.base_folder false ::
    ((f.criterion.filterT f.account.connection).1 ++
      (let msgs := (f.criterion.filterT f.account.connection).2
       if msgs.isEmpty then []
       else if dry_run then []
       else f.action.execute f.account msgs))

/-! ### Duplicate detection (`criteria/duplicate.py`) -/

/-- The fallback sender address: `from_[0][1]` when the first tuple has
more than one component, else `str(from_[0][0])`.  The source raises on
an empty tuple; parser tuples are nonempty, so `[]` is mapped to `""`
here. -/
def fallbackFrom : List (List String) → String
  | [] => ""
  | f0 :: _ =>
    match f0 with
    | [] => ""
    | [a] => a
    | _ :: b :: _ => b

/-- `_get_duplicate_key(msg)`: `"msgid:" + message_id` when the
`message_id` attribute is present and truthy (non-empty), else
`"fallback:subject|from|date"`. -/
def getDuplicateKey (msg : Mail) : String :=
  let fallback :=
    "fallback:" ++ msg.subject.getD "" ++ "|" ++
      (if msg.from_.isEmpty then "" else fallbackFrom msg.from_) ++ "|" ++ msg.date
  match msg.message_id with
  | some mid => if mid = "" then fallback else "msgid:" ++ mid
  | none => fallback

/-- Append a message to the group of its key, keeping the group list in
first-occurrence key order (Python `defaultdict` insertion order). -/
def addToGroups (groups : List (String × List (Nat × Mail))) (key : String)
    (p : Nat × Mail) : List (String × List (Nat × Mail)) :=
  match groups with
  | [] => [(key, [p])]
  | (k, g) :: rest =>
    if k = key then (k, g ++ [p]) :: rest
    else (k, g) :: addToGroups rest key p

/-- The `duplicate_groups` dictionary: messages grouped by duplicate
key, keys in first-occurrence order, members in message order. -/
def groupByKey (msgs : List (Nat × Mail)) : List (String × List (Nat × Mail)) :=
  msgs.foldl (fun acc p => addToGroups acc (getDuplicateKey p.2) p) []

/-- Comparison by message id, the key of
`group.sort(key=lambda x: x[0])`. -/
def idLE (a b : Nat × Mail) : Prop := a.1 ≤ b.1

instance : DecidableRel idLE := fun a b => inferInstanceAs (Decidable (a.1 ≤ b.1))

instance : IsTotal (Nat × Mail) idLE := ⟨fun a b => Nat.le_total a.1 b.1⟩

instance : IsTrans (Nat × Mail) idLE := ⟨fun _ _ _ h h' => Nat.le_trans h h'⟩

/-- Stable ascending sort of a group by message id
(`group.sort(key=lambda x: x[0])`; Python `list.sort` is stable). -/
def sortById (l : List (Nat × Mail)) : List (Nat × Mail) :=
  List.insertionSort idLE l

/-- `DuplicateCriterion.filter(connection)`: fetch everything, group by
duplicate key, and for every group with more than one member return all
ids except the smallest, in group order. -/
def DuplicateCriterion.filter (conn : Conn) : List Nat :=
  let messages := getMail conn [QueryItem.atom "ALL"]
  if messages.isEmpty then []
  else
    (groupByKey messages).flatMap fun kg =>
      if 1 < kg.2.length then ((sortById kg.2).drop 1).map Prod.fst else []

/-! ### Events handler (`events_handler.py`) -/

/-- One IMAP IDLE response tuple `(sequence number, event type,
optional detail)`. -/
abbrev IdleResponse := List (Nat × String × Option (List String))

/-- `EventsHandler`: the monitored account and folder and the reaction
callback.  The callback's side effects are modelled as a list of
observations of type `α`. -/
structure EventsHandler (α : Type) where
  account : EMailAccount
  folder : String := "INBOX"
  handle : IdleResponse → List α

/-- `EventsHandler.__add__`: a new handler on `self.account` and
`self.folder` whose callback runs `self.handle` then `other.handle` on
the same responses. -/
def EventsHandler.add {α : Type} (h1 h2 : EventsHandler α) : EventsHandler α :=
  ⟨h1.account, h1.folder, fun responses => h1.handle responses ++ h2.handle responses⟩

/-- Thread-level operations performed by `EventsHandler.stop` and
`EventsHandler.join`. -/
inductive ThreadOp where
  | setStopEvent
  | idleDone
  | logout
  | threadJoin
deriving DecidableEq, Repr

/-- The sequence of operations `EventsHandler.stop()` performs: set the
stop event, then best-effort `idle_done` and `logout` (each tolerating
`SSLWantReadError`). -/
def EventsHandler.stopOps : List ThreadOp :=
  [ThreadOp.setStopEvent, ThreadOp.idleDone, ThreadOp.logout]

/-- The sequence of operations `EventsHandler.join()` performs: join the
watcher thread. -/
def EventsHandler.joinOps : List ThreadOp :=
  [ThreadOp.threadJoin]

/-! ### The watch loop (`EventsHandler._watch`) -/

/-- Outcome of one iteration body of the watch loop (the
`idle`/`idle_check`/`idle_done`/handler/`noop` sequence). -/
inductive IterOutcome where
  | ok
  | connError
  | otherError
deriving DecidableEq, Repr

/-- What one iteration of the watch loop does next: terminate the loop,
continue (recording the back-off seconds slept and whether the
connection was recreated), or let an exception escape the thread. -/
inductive StepResult where
  | exit
  | continued (backoff : Nat) (reconnected : Bool)
  | raised
deriving DecidableEq, Repr

/-- One iteration of `EventsHandler._watch`:

* `stopAtTop`: the `while not self._stop_event.is_set()` sample;
* `connLive`: truthiness of `self._conn`;
* `outcome`: how the iteration body ended;
* `stopAtCatch`: the `self._stop_event.is_set()` sample inside the
  `SSLEOFError`/`ProtocolError` handler (the flag may be set
  concurrently between the two samples).

An `ok` body continues directly; a connection error exits when the stop
flag is set by then, else reconnects and sleeps 5 seconds; any other
exception reconnects and sleeps 5 seconds; a dead connection is
recreated with the same back-off without running the body. -/
def watchStep (stopAtTop connLive : Bool) (outcome : IterOutcome)
    (stopAtCatch : Bool) : StepResult :=
  if stopAtTop then StepResult.exit
  else if !connLive then StepResult.continued 5 true
  else
    match outcome with
    | IterOutcome.ok => StepResult.continued 0 false
    | IterOutcome.connError =>
      if stopAtCatch then StepResult.exit else StepResult.continued 5 true
    | IterOutcome.otherError => StepResult.continued 5 true

/-- The environment of one watch-loop iteration: the two stop-flag
samples, the connection liveness, and the body outcome. -/
structure IterInput where
  stopAtTop : Bool
  connLive : Bool
  outcome : IterOutcome
  stopAtCatch : Bool
deriving DecidableEq, Repr

/-- Run the watch loop over a finite sequence of iteration
environments; `true` means the loop has terminated (or an exception
escaped) within them. -/
def watchRun : List IterInput → Bool
  | [] => false
  | i :: rest =>
    match watchStep i.stopAtTop i.connLive i.outcome i.stopAtCatch with
    | StepResult.continued _ _ => watchRun rest
    | _ => true

/-! ### Properties and concrete fixtures -/

/-- The criterion-level soundness invariant the spec assumes of every
criterion: the server-side search for the criterion's (effective) query
returns every message its client predicate accepts, among the messages
that fetch and parse. -/
def SupersetOk (c : Criterion) (conn : Conn) : Prop :=
  ∀ i m, parsedAt conn i = some m → c.func m = true →
    i ∈ conn.searchFn c.usedQuery

/-- A well-formed `EfficientCriterion` instance: tagged efficient, with
the (required, non-empty) IMAP query its constructor demands. -/
def IsEff (c : Criterion) : Prop :=
  c.efficient = true ∧ qTruthy c.imap_query = true

/-- A concrete mailbox with three messages: 1 and 2 share Message-ID
`A`, message 3 has Message-ID `B`; the server search returns all three
ids for every query. -/
def exConn : Conn where
  searchFn := fun _ => [1, 2, 3]
  fetchFn := fun i =>
    if i = 1 then some ⟨some "b1", []⟩
    else if i = 2 then some ⟨some "b2", []⟩
    else if i = 3 then some ⟨some "b3", []⟩
    else none
  parse := fun b =>
    if b = "b1" then some ⟨some "A", none, [], "", []⟩
    else if b = "b2" then some ⟨some "A", none, [], "", []⟩
    else if b = "b3" then some ⟨some "B", none, [], "", []⟩
    else none

/-- A mailbox with no messages at all. -/
def emptyConn : Conn where
  searchFn := fun _ => []
  fetchFn := fun _ => none
  parse := fun _ => none

/-- A mailbox whose search returns four ids: 1 parses, 2 has empty
body data, 3 has a body the parser rejects, 4 has no `BODY[]` item. -/
def mixedConn : Conn where
  searchFn := fun _ => [1, 2, 3, 4]
  fetchFn := fun i =>
    if i = 1 then some ⟨some "good", []⟩
    else if i = 2 then some ⟨some "", []⟩
    else if i = 3 then some ⟨some "bad", []⟩
    else if i = 4 then some ⟨none, []⟩
    else none
  parse := fun b =>
    if b = "good" then some ⟨some "G", none, [], "", []⟩ else none

/-- The one message of `mixedConn` that parses. -/
def goodMail : Mail := ⟨some "G", none, [], "", []⟩

/-- A concrete general criterion: client predicate "Message-ID is `A`",
server query `["HEADER", "Message-ID", "A"]`. -/
def wCritA : Criterion :=
  ⟨fun m => decide (m.message_id = some "A"),
   some [QueryItem.atom "HEADER", QueryItem.atom "Message-ID", QueryItem.atom "A"], false⟩

/-- A concrete general criterion with no server query: client predicate
"Message-ID is `B`". -/
def wCritB : Criterion :=
  ⟨fun m => decide (m.message_id = some "B"), none, false⟩

/-- A concrete filter on the three-message mailbox whose criterion
accepts nothing, bound to a move action. -/
def noMatchFilter : CriterionFilter :=
  ⟨⟨"ex", exConn⟩, ⟨fun _ => false, none, false⟩, MoveTo "X", "INBOX"⟩

/-- `IsRead()`: an efficient criterion with query `["SEEN"]` whose
predicate inspects the attached flags. -/
def IsRead : Criterion :=
  ⟨fun m => decide ("\\Seen" ∈ m.imapFlags), some [QueryItem.atom "SEEN"], true⟩

/-- `IsUnread()`: an efficient criterion with query `["UNSEEN"]`. -/
def IsUnread : Criterion :=
  ⟨fun m => !decide ("\\Seen" ∈ m.imapFlags), some [QueryItem.atom "UNSEEN"], true⟩

/-! ## Helper lemmas -/

/-- `_make_efficient` changes only the `efficient` tag, never the
query. -/
lemma makeEfficient_imap_query {c c' : Criterion} (h : makeEfficient c = some c') :
    c'.imap_query = c.imap_query := by
  unfold makeEfficient at h
  cases hq : c.imap_query with
  | none => rw [hq] at h; exact absurd h (by simp)
  | some q => rw [hq] at h; cases h; rfl

/-- Whatever the dynamic dispatch, the query of `a & b` is
`andQuery`. -/
lemma opAnd_imap_query {a b c : Criterion} (h : a.opAnd b = some c) :
    c.imap_query = andQuery a.imap_query b.imap_query := by
  unfold Criterion.opAnd at h
  by_cases he : (a.efficient && b.efficient) = true
  · rw [if_pos he] at h
    exact makeEfficient_imap_query h
  · rw [if_neg he] at h
    cases h; rfl

/-- Membership in `_get_mail`: exactly the searched ids whose fetch
data is present, non-empty and parses. -/
lemma mem_getMail {conn : Conn} {q : Query} {i : Nat} {m : Mail} :
    (i, m) ∈ getMail conn q ↔
      i ∈ conn.searchFn q ∧ parsedAt conn i = some m := by
  unfold getMail
  rw [List.mem_filterMap]
  constructor
  · rintro ⟨j, hj, hmap⟩
    cases hp : parsedAt conn j with
    | none => rw [hp] at hmap; exact absurd hmap (by simp)
    | some m' =>
      rw [hp] at hmap
      simp only [Option.map_some', Option.some.injEq, Prod.mk.injEq] at hmap
      obtain ⟨rfl, rfl⟩ := hmap
      exact ⟨hj, hp⟩
  · rintro ⟨hi, hp⟩
    exact ⟨i, hi, by rw [hp]; rfl⟩

/-- Membership in the general (non-efficient) `Criterion.filter`: the
searched ids that fetch, parse, and satisfy the predicate. -/
lemma filter_mem_general {c : Criterion} (hc : c.efficient = false)
    (conn : Conn) (i : Nat) :
    i ∈ c.filter conn ↔
      ∃ m, i ∈ conn.searchFn c.usedQuery ∧ parsedAt conn i = some m ∧
        c.func m = true := by
  unfold Criterion.filter Criterion.filterT
  rw [hc]
  simp only [Bool.false_eq_true, if_false, List.mem_map]
  constructor
  · rintro ⟨⟨j, m⟩, hjm, rfl⟩
    rw [List.mem_filter] at hjm
    obtain ⟨hmem, hfunc⟩ := hjm
    rw [mem_getMail] at hmem
    exact ⟨m, hmem.1, hmem.2, hfunc⟩
  · rintro ⟨m, hi, hp, hf⟩
    exact ⟨(i, m), List.mem_filter.mpr ⟨mem_getMail.mpr ⟨hi, hp⟩, hf⟩, rfl⟩

/-- Under the superset invariant, a general criterion's filter result
is exactly the parsed messages accepted by its client predicate. -/
lemma filter_eq_pure {c : Criterion} {conn : Conn}
    (hc : c.efficient = false) (hs : SupersetOk c conn) (i : Nat) :
    i ∈ c.filter conn ↔
      ∃ m, parsedAt conn i = some m ∧ c.func m = true := by
  rw [filter_mem_general hc]
  constructor
  · rintro ⟨m, _, hp, hf⟩
    exact ⟨m, hp, hf⟩
  · rintro ⟨m, hp, hf⟩
    exact ⟨m, hs i m hp hf, hp, hf⟩

/-! ## Claims -/

/-- **C2 counterexample.**  The claim renders as: `stop()` performs a
join of the watcher thread before returning.  It does not: the
operation sequence of `EventsHandler.stop` contains no thread join
(joining is the separate `EventsHandler.join` method), so `stop()` can
return while the watcher thread — and hence the handler callback — is
still running. -/
theorem stop_performs_no_join : ThreadOp.threadJoin ∉ EventsHandler.stopOps := by
  decide

/-- **C2 (amended).**  `stop()` sets the stop flag and best-effort ends
the idle wait and logs out, but does not join the watcher thread; the
join is performed by the separate `join()` method, which callers must
invoke after `stop()` to be sure no further callback invocation begins.
-/
theorem stop_sets_flag_and_join_is_separate :
    EventsHandler.stopOps =
      [ThreadOp.setStopEvent, ThreadOp.idleDone, ThreadOp.logout] ∧
    ThreadOp.threadJoin ∉ EventsHandler.stopOps ∧
    EventsHandler.joinOps = [ThreadOp.threadJoin] :=
  ⟨rfl, by decide, rfl⟩

/-- **C3.**  One iteration of the watch loop never lets an exception
escape the thread; it terminates exactly when a stop-flag sample was
observed set (at the top of the loop, or inside the connection-error
handler); every abnormal iteration that does not terminate reconnects
and backs off 5 seconds; and over any finite sequence of iterations in
which the stop flag is never observed set, the loop is still running.
-/
theorem watch_loop_swallows_errors_and_retries :
    ∀ (stopTop connLive : Bool) (out : IterOutcome) (stopCatch : Bool),
      (watchStep stopTop connLive out stopCatch ≠ StepResult.raised) ∧
      (watchStep stopTop connLive out stopCatch = StepResult.exit ↔
        (stopTop = true ∨
          (connLive = true ∧ out = IterOutcome.connError ∧ stopCatch = true))) ∧
      (stopTop = false → connLive = true → out ≠ IterOutcome.ok →
        watchStep stopTop connLive out stopCatch ≠ StepResult.exit →
        watchStep stopTop connLive out stopCatch = StepResult.continued 5 true) ∧
      (∀ inputs : List IterInput,
        (∀ inp ∈ inputs, inp.stopAtTop = false ∧ inp.stopAtCatch = false) →
        watchRun inputs = false) := by
  have hrun : ∀ inputs : List IterInput,
      (∀ inp ∈ inputs, inp.stopAtTop = false ∧ inp.stopAtCatch = false) →
      watchRun inputs = false := by
    intro inputs h
    induction inputs with
    | nil => rfl
    | cons i rest ih =>
      obtain ⟨h1, h2⟩ := h i (List.mem_cons_self i rest)
      have hstep : ∃ b r,
          watchStep i.stopAtTop i.connLive i.outcome i.stopAtCatch =
            StepResult.continued b r := by
        rw [h1, h2]
        cases i.connLive <;> cases i.outcome <;> exact ⟨_, _, rfl⟩
      obtain ⟨b, r, hbr⟩ := hstep
      have : watchRun (i :: rest) = watchRun rest := by
        simp only [watchRun]
        rw [hbr]
      rw [this]
      exact ih fun inp hin => h inp (List.mem_cons_of_mem i hin)
  intro stopTop connLive out stopCatch
  refine ⟨?_, ?_, ?_, hrun⟩
  · cases stopTop <;> cases connLive <;> cases out <;> cases stopCatch <;>
      simp [watchStep]
  · cases stopTop <;> cases connLive <;> cases out <;> cases stopCatch <;>
      simp [watchStep]
  · intro h1 h2 h3 h4
    subst h1; subst h2
    cases out with
    | ok => exact absurd rfl h3
    | connError =>
      cases stopCatch with
      | false => rfl
      | true => exact absurd rfl h4
    | otherError => rfl

/-- **C3 witness.**  A protocol error while the stop flag is unset:
the step swallows the error, reconnects, and backs off 5 seconds; a
two-iteration run with the flag unset is still running. -/
theorem watch_loop_swallows_errors_and_retries_witness :
    watchStep false true IterOutcome.connError false = StepResult.continued 5 true ∧
    watchRun [⟨false, true, IterOutcome.connError, false⟩,
              ⟨false, true, IterOutcome.otherError, false⟩] = false :=
  ⟨(watch_loop_swallows_errors_and_retries false true IterOutcome.connError
      false).2.2.1 rfl rfl (by decide) (by decide),
   (watch_loop_swallows_errors_and_retries false true IterOutcome.connError
      false).2.2.2 _ (by decide)⟩

/-- **C7.**  The server query of `C1 & C2` is the concatenation of both
queries when both sides carry one, the query of whichever single side
carries one otherwise, and it is absent only when neither side carries
a query. -/
theorem and_query_combination (a b c : Criterion) (h : a.opAnd b = some c) :
    (qTruthy a.imap_query = true → qTruthy b.imap_query = true →
      c.imap_query = some (a.imap_query.getD [] ++ b.imap_query.getD [])) ∧
    (qTruthy a.imap_query = true → qTruthy b.imap_query = false →
      c.imap_query = a.imap_query) ∧
    (qTruthy a.imap_query = false → qTruthy b.imap_query = true →
      c.imap_query = b.imap_query) ∧
    (c.imap_query = none →
      qTruthy a.imap_query = false ∧ qTruthy b.imap_query = false) := by
  have hq := opAnd_imap_query h
  unfold andQuery at hq
  refine ⟨?_, ?_, ?_, ?_⟩
  · intro h1 h2
    rw [hq, if_pos (by rw [h1, h2]; rfl)]
  · intro h1 h2
    rw [hq, if_neg (by rw [h1, h2]; simp), if_pos h1]
  · intro h1 h2
    rw [hq, if_neg (by rw [h1, h2]; simp), if_neg (by rw [h1]; simp)]
  · intro hnone
    rw [hq] at hnone
    by_cases h1 : qTruthy a.imap_query = true
    · by_cases h2 : qTruthy b.imap_query = true
      · rw [if_pos (by rw [h1, h2]; rfl)] at hnone
        exact absurd hnone (by simp)
      · rw [if_neg (by rw [h1]; simpa using h2), if_pos h1] at hnone
        rw [hnone] at h1
        exact absurd h1 (by simp [qTruthy])
    · constructor
      · simpa using h1
      · rw [if_neg (by rw [Bool.not_eq_true] at h1; rw [h1]; simp),
          if_neg h1] at hnone
        rw [hnone]
        rfl

/-- **C7 witness.**  Concretely, AND of a query-less criterion with a
query-bearing one keeps the right side's query. -/
theorem and_query_combination_witness :
    wCritB.opAnd wCritA = some (wCritB.baseAnd wCritA) ∧
    (wCritB.baseAnd wCritA).imap_query = wCritA.imap_query :=
  ⟨rfl, (and_query_combination wCritB wCritA (wCritB.baseAnd wCritA) rfl).2.2.1
    rfl rfl⟩

/-- On `exConn` the server search returns every message for every
query, so the superset invariant holds for every criterion. -/
lemma exConn_superset (c : Criterion) : SupersetOk c exConn := by
  intro i m hp _
  have hi : i = 1 ∨ i = 2 ∨ i = 3 := by
    by_contra hcon
    push_neg at hcon
    obtain ⟨h1, h2, h3⟩ := hcon
    have hnone : parsedAt exConn i = none := by
      unfold parsedAt exConn
      simp [h1, h2, h3]
    rw [hnone] at hp
    exact absurd hp (by simp)
  rcases hi with rfl | rfl | rfl <;> simp [exConn]

/-- **C1.**  Over one connection, for general criteria whose
server-side queries satisfy the superset invariant (each query's search
returns every message its client predicate accepts — assumed for the
two operands and for each combined criterion, all of which the claim
evaluates), `&` filters to the set intersection, `|` to the set union,
and `~` to the complement relative to the match-everything
criterion. -/
theorem criteria_boolean_algebra (a b : Criterion) (conn : Conn)
    (ha : a.efficient = false) (hb : b.efficient = false)
    (hsa : SupersetOk a conn) (hsb : SupersetOk b conn)
    (hsand : SupersetOk (a.baseAnd b) conn)
    (hsor : SupersetOk (a.baseOr b) conn)
    (hsnot : SupersetOk a.baseNot conn)
    (hsall : SupersetOk matchEverything conn) :
    a.opAnd b = some (a.baseAnd b) ∧
    a.opOr b = some (a.baseOr b) ∧
    a.opNot = some a.baseNot ∧
    (∀ i, i ∈ (a.baseAnd b).filter conn ↔
      (i ∈ a.filter conn ∧ i ∈ b.filter conn)) ∧
    (∀ i, i ∈ (a.baseOr b).filter conn ↔
      (i ∈ a.filter conn ∨ i ∈ b.filter conn)) ∧
    (∀ i, i ∈ a.baseNot.filter conn ↔
      (i ∈ matchEverything.filter conn ∧ i ∉ a.filter conn)) := by
  refine ⟨by simp [Criterion.opAnd, ha], by simp [Criterion.opOr, ha],
    by simp [Criterion.opNot, ha], ?_, ?_, ?_⟩
  · intro i
    rw [filter_eq_pure rfl hsand i, filter_eq_pure ha hsa i,
      filter_eq_pure hb hsb i]
    constructor
    · rintro ⟨m, hp, hf⟩
      have hf' : a.func m = true ∧ b.func m = true := by
        simpa [Criterion.baseAnd] using hf
      exact ⟨⟨m, hp, hf'.1⟩, ⟨m, hp, hf'.2⟩⟩
    · rintro ⟨⟨m1, hp1, hf1⟩, ⟨m2, hp2, hf2⟩⟩
      rw [hp1] at hp2
      obtain rfl : m1 = m2 := Option.some.inj hp2
      exact ⟨m1, hp1, by simp [Criterion.baseAnd, hf1, hf2]⟩
  · intro i
    rw [filter_eq_pure rfl hsor i, filter_eq_pure ha hsa i,
      filter_eq_pure hb hsb i]
    constructor
    · rintro ⟨m, hp, hf⟩
      have hf' : a.func m = true ∨ b.func m = true := by
        simpa [Criterion.baseOr] using hf
      rcases hf' with hf' | hf'
      · exact Or.inl ⟨m, hp, hf'⟩
      · exact Or.inr ⟨m, hp, hf'⟩
    · rintro (⟨m, hp, hf⟩ | ⟨m, hp, hf⟩)
      · exact ⟨m, hp, by simp [Criterion.baseOr, hf]⟩
      · exact ⟨m, hp, by simp [Criterion.baseOr, hf]⟩
  · intro i
    rw [filter_eq_pure rfl hsnot i, filter_eq_pure rfl hsall i,
      filter_eq_pure ha hsa i]
    constructor
    · rintro ⟨m, hp, hf⟩
      have hfa : a.func m = false := by
        simpa [Criterion.baseNot] using hf
      refine ⟨⟨m, hp, rfl⟩, ?_⟩
      rintro ⟨m', hp', hf'⟩
      rw [hp] at hp'
      obtain rfl : m = m' := Option.some.inj hp'
      rw [hfa] at hf'
      exact absurd hf' (by simp)
    · rintro ⟨⟨m, hp, _⟩, hnot⟩
      refine ⟨m, hp, ?_⟩
      have hfa : a.func m = false := by
        by_contra hcon
        rw [Bool.not_eq_false] at hcon
        exact hnot ⟨m, hp, hcon⟩
      simp [Criterion.baseNot, hfa]

/-- **C1 witness.**  On the three-message mailbox, id 2 (Message-ID
`A`) is in the AND of "Message-ID is A" and "Message-ID is B" exactly
when it is in both. -/
theorem criteria_boolean_algebra_witness :
    2 ∈ (wCritA.baseAnd wCritB).filter exConn ↔
      (2 ∈ wCritA.filter exConn ∧ 2 ∈ wCritB.filter exConn) :=
  (criteria_boolean_algebra wCritA wCritB exConn rfl rfl
    (exConn_superset _) (exConn_superset _) (exConn_superset _)
    (exConn_superset _) (exConn_superset _) (exConn_superset _)).2.2.2.1 2

/-- **C9.**  During general criterion evaluation, a message whose body
data is missing/empty or whose parse fails contributes nothing to
`_get_mail`'s result, while every other searched message is still
fetched, parsed and evaluated; `Criterion.filter` is the total function
characterised by the third conjunct, so a per-message failure never
aborts the evaluation. -/
theorem per_message_failures_skipped (conn : Conn) (c : Criterion)
    (hc : c.efficient = false) :
    (∀ (q : Query) (i : Nat) (m : Mail), parsedAt conn i = none →
      (i, m) ∉ getMail conn q) ∧
    (∀ (q : Query) (i : Nat) (m : Mail), i ∈ conn.searchFn q →
      parsedAt conn i = some m → (i, m) ∈ getMail conn q) ∧
    (∀ i, i ∈ c.filter conn ↔
      ∃ m, i ∈ conn.searchFn c.usedQuery ∧ parsedAt conn i = some m ∧
        c.func m = true) := by
  refine ⟨?_, ?_, fun i => filter_mem_general hc conn i⟩
  · intro q i m hnone hmem
    rw [mem_getMail] at hmem
    rw [hnone] at hmem
    exact absurd hmem.2 (by simp)
  · intro q i m hi hp
    exact mem_getMail.mpr ⟨hi, hp⟩

/-- **C9 witness.**  In the mixed mailbox, the unparseable message 3
yields no entry while the parseable message 1 is still returned. -/
theorem per_message_failures_skipped_witness :
    ((3 : Nat), goodMail) ∉ getMail mixedConn [QueryItem.atom "ALL"] ∧
    ((1 : Nat), goodMail) ∈ getMail mixedConn [QueryItem.atom "ALL"] :=
  ⟨(per_message_failures_skipped mixedConn wCritB rfl).1 _ 3 _ (by decide),
   (per_message_failures_skipped mixedConn wCritB rfl).2.1 _ 1 _ (by decide)
     (by decide)⟩

/-- An efficient criterion's `filter` issues exactly one `search` with
its own query and returns the identifiers unchanged. -/
lemma filterT_efficient {c : Criterion} (hc : c.efficient = true)
    (conn : Conn) :
    c.filterT conn =
      ([MailOp.search (c.imap_query.getD [])],
        conn.searchFn (c.imap_query.getD [])) := by
  unfold Criterion.filterT
  rw [hc]
  simp

/-- **C4.**  Combining two (well-formed) efficient criteria with `&`,
`|`, or negating one, yields again an efficient criterion, whose
evaluation issues exactly one server search with the combined query and
returns the resulting identifiers as-is — no fetch, no parse. -/
theorem efficient_composition (e1 e2 : Criterion) (conn : Conn)
    (h1 : IsEff e1) (h2 : IsEff e2) :
    (∃ c, e1.opAnd e2 = some c ∧ IsEff c ∧
      c.filterT conn =
        ([MailOp.search (e1.imap_query.getD [] ++ e2.imap_query.getD [])],
          conn.searchFn (e1.imap_query.getD [] ++ e2.imap_query.getD []))) ∧
    (∃ c, e1.opOr e2 = some c ∧ IsEff c ∧
      c.filterT conn =
        ([MailOp.search [QueryItem.atom "OR",
            QueryItem.sub (e1.imap_query.getD []),
            QueryItem.sub (e2.imap_query.getD [])]],
          conn.searchFn [QueryItem.atom "OR",
            QueryItem.sub (e1.imap_query.getD []),
            QueryItem.sub (e2.imap_query.getD [])])) ∧
    (∃ c, e1.opNot = some c ∧ IsEff c ∧
      c.filterT conn =
        ([MailOp.search [QueryItem.atom "NOT",
            QueryItem.sub (e1.imap_query.getD [])]],
          conn.searchFn [QueryItem.atom "NOT",
            QueryItem.sub (e1.imap_query.getD [])])) := by
  obtain ⟨he1, ht1⟩ := h1
  obtain ⟨he2, ht2⟩ := h2
  cases hq1 : e1.imap_query with
  | none => rw [hq1] at ht1; exact absurd ht1 (by simp [qTruthy])
  | some q1 =>
  cases hq2 : e2.imap_query with
  | none => rw [hq2] at ht2; exact absurd ht2 (by simp [qTruthy])
  | some q2 =>
  rw [hq1] at ht1
  rw [hq2] at ht2
  have hne1 : q1.isEmpty = false := by simpa [qTruthy] using ht1
  refine ⟨⟨⟨fun m => e1.func m && e2.func m, some (q1 ++ q2), true⟩, ?_, ?_, ?_⟩,
    ⟨⟨fun m => e1.func m || e2.func m,
      some [QueryItem.atom "OR", QueryItem.sub q1, QueryItem.sub q2], true⟩,
      ?_, ?_, ?_⟩,
    ⟨⟨fun m => !e1.func m,
      some [QueryItem.atom "NOT", QueryItem.sub q1], true⟩, ?_, ?_, ?_⟩⟩
  · simp [Criterion.opAnd, he1, he2, makeEfficient, Criterion.baseAnd,
      andQuery, hq1, hq2, ht1, ht2]
  · refine ⟨rfl, ?_⟩
    cases q1 with
    | nil => exact absurd hne1 (by simp)
    | cons x xs => rfl
  · rw [filterT_efficient rfl conn]; rfl
  · simp [Criterion.opOr, he1, he2, makeEfficient, Criterion.baseOr,
      orQuery, hq1, hq2, ht1, ht2]
  · exact ⟨rfl, rfl⟩
  · rw [filterT_efficient rfl conn]; rfl
  · simp [Criterion.opNot, he1, makeEfficient, Criterion.baseNot,
      notQuery, hq1, ht1]
  · exact ⟨rfl, rfl⟩
  · rw [filterT_efficient rfl conn]; rfl

/-- **C4 witness.**  `IsRead & IsUnread` on the three-message mailbox
is again efficient and evaluates by a single search with the
concatenated query. -/
theorem efficient_composition_witness :
    ∃ c, IsRead.opAnd IsUnread = some c ∧ IsEff c ∧
      c.filterT exConn =
        ([MailOp.search (IsRead.imap_query.getD [] ++
            IsUnread.imap_query.getD [])],
          exConn.searchFn (IsRead.imap_query.getD [] ++
            IsUnread.imap_query.getD [])) :=
  (efficient_composition IsRead IsUnread exConn ⟨rfl, rfl⟩ ⟨rfl, rfl⟩).1

/-- A criterion evaluation issues either one search, or one search
followed by one fetch. -/
lemma filterT_ops (c : Criterion) (conn : Conn) :
    (∃ q, (c.filterT conn).1 = [MailOp.search q]) ∨
    (∃ q ids, (c.filterT conn).1 = [MailOp.search q, MailOp.fetch ids]) := by
  by_cases hc : c.efficient = true
  · refine Or.inl ⟨c.imap_query.getD [], ?_⟩
    simp [Criterion.filterT, hc]
  · refine Or.inr ⟨c.usedQuery, conn.searchFn c.usedQuery, ?_⟩
    simp [Criterion.filterT, hc]

/-- **C6.**  `CriterionFilter.apply` in dry-run mode issues the folder
selection and the criterion's server calls (including its search) and
nothing else — in particular none of the mutating primitives — even
when ids matched; and in either mode, when the criterion matches no
ids, the action contributes no operation at all. -/
theorem apply_dry_run_and_no_match (f : CriterionFilter) :
    (f.apply true =
      MailOp.selectFolder f.base_folder false ::
        (f.criterion.filterT f.account.connection).1) ∧
    (∃ q, MailOp.search q ∈ f.apply true) ∧
    (∀ op ∈ f.apply true, op.isMut = false) ∧
    (∀ dry_run : Bool,
      (f.criterion.filter f.account.connection).isEmpty = true →
      f.apply dry_run =
        MailOp.selectFolder f.base_folder false ::
          (f.criterion.filterT f.account.connection).1) := by
  have hdry : f.apply true =
      MailOp.selectFolder f.base_folder false ::
        (f.criterion.filterT f.account.connection).1 := by
    unfold CriterionFilter.apply
    by_cases hm : ((f.criterion.filterT f.account.connection).2).isEmpty = true
    · rw [if_pos hm, List.append_nil]
    · rw [if_neg hm, if_pos rfl, List.append_nil]
  have hops : ∀ op ∈ (f.criterion.filterT f.account.connection).1,
      op.isMut = false := by
    intro op hop
    rcases filterT_ops f.criterion f.account.connection with ⟨q, hq⟩ | ⟨q, ids, hq⟩
    · rw [hq] at hop
      rcases List.mem_singleton.mp hop with rfl
      rfl
    · rw [hq] at hop
      rcases List.mem_cons.mp hop with rfl | h
      · rfl
      · rcases List.mem_singleton.mp h with rfl
        rfl
  refine ⟨hdry, ?_, ?_, ?_⟩
  · rcases filterT_ops f.criterion f.account.connection with ⟨q, hq⟩ | ⟨q, ids, hq⟩ <;>
      exact ⟨q, by rw [hdry, hq]; simp⟩
  · intro op hop
    rw [hdry] at hop
    rcases List.mem_cons.mp hop with rfl | h
    · rfl
    · exact hops op h
  · intro dry_run hm
    have hm' : ((f.criterion.filterT f.account.connection).2).isEmpty = true := hm
    unfold CriterionFilter.apply
    rw [if_pos hm', List.append_nil]

/-- **C6 witness.**  A non-dry-run application whose criterion matches
nothing issues only the folder selection and the criterion's calls. -/
theorem apply_dry_run_and_no_match_witness :
    noMatchFilter.apply false =
      MailOp.selectFolder "INBOX" false ::
        (noMatchFilter.criterion.filterT noMatchFilter.account.connection).1 :=
  (apply_dry_run_and_no_match noMatchFilter).2.2.2 false (by decide)

/-- The ids of `_get_mail`'s result are a sublist of the searched ids,
hence distinct whenever the search result is. -/
lemma getMail_ids_nodup {conn : Conn} {q : Query}
    (h : (conn.searchFn q).Nodup) :
    ((getMail conn q).map Prod.fst).Nodup := by
  have hsub : List.Sublist ((getMail conn q).map Prod.fst) (conn.searchFn q) := by
    unfold getMail
    generalize conn.searchFn q = l
    induction l with
    | nil => simp
    | cons x xs ih =>
      rw [List.filterMap_cons]
      cases hp : parsedAt conn x with
      | none => exact ih.cons x
      | some m =>
        rw [Option.map_some', List.map_cons]
        exact ih.cons₂ x
  exact h.sublist hsub

/-- The keys of the groups after inserting one message: unchanged when
the key was already present, else extended by the new key. -/
lemma addToGroups_keys (gs : List (String × List (Nat × Mail)))
    (k0 : String) (p : Nat × Mail) :
    (addToGroups gs k0 p).map Prod.fst =
      if k0 ∈ gs.map Prod.fst then gs.map Prod.fst
      else gs.map Prod.fst ++ [k0] := by
  induction gs with
  | nil => simp [addToGroups]
  | cons hd rest ih =>
    obtain ⟨k, g⟩ := hd
    by_cases hk : k = k0
    · subst hk
      simp [addToGroups]
    · have hk' : k0 ≠ k := fun h => hk h.symm
      simp only [addToGroups, if_neg hk, List.map_cons]
      rw [ih]
      by_cases hmem : k0 ∈ rest.map Prod.fst
      · rw [if_pos hmem, if_pos (List.mem_cons_of_mem _ hmem)]
      · rw [if_neg hmem, if_neg (by simp [hk', hmem]), List.cons_append]

/-- Membership in the groups after inserting one message with key `k0`
(for a group list with distinct keys, as `groupByKey` produces): the
other keys' groups are untouched; `k0`'s group is extended by the
message, or created as the singleton when absent. -/
lemma mem_addToGroups (k0 : String) (p : Nat × Mail) (k : String)
    (g : List (Nat × Mail)) :
    ∀ gs : List (String × List (Nat × Mail)), (gs.map Prod.fst).Nodup →
      ((k, g) ∈ addToGroups gs k0 p ↔
        ((k ≠ k0 ∧ (k, g) ∈ gs) ∨
          (k = k0 ∧
            ((∃ g0, (k0, g0) ∈ gs ∧ g = g0 ++ [p]) ∨
              (k0 ∉ gs.map Prod.fst ∧ g = [p]))))) := by
  intro gs
  induction gs with
  | nil =>
    intro _
    constructor
    · intro hmem
      have heq : (k, g) = (k0, [p]) := List.mem_singleton.mp hmem
      obtain ⟨rfl, rfl⟩ : k = k0 ∧ g = [p] := by
        simpa [Prod.ext_iff] using heq
      exact Or.inr ⟨rfl, Or.inr ⟨by simp, rfl⟩⟩
    · rintro (⟨_, hmem⟩ | ⟨rfl, hcase⟩)
      · exact absurd hmem (List.not_mem_nil _)
      · rcases hcase with ⟨g0, hg0, _⟩ | ⟨_, rfl⟩
        · exact absurd hg0 (List.not_mem_nil _)
        · exact List.mem_singleton.mpr rfl
  | cons hd rest ih =>
    intro hnd
    obtain ⟨k1, g1⟩ := hd
    rw [List.map_cons, List.nodup_cons] at hnd
    obtain ⟨hk1nin, hnd'⟩ := hnd
    by_cases hk1 : k1 = k0
    · simp only [addToGroups, if_pos hk1]
      constructor
      · intro hmem
        rcases List.mem_cons.mp hmem with heq | hmem'
        · obtain ⟨hkk, hgg⟩ : k = k1 ∧ g = g1 ++ [p] := by
            simpa [Prod.ext_iff] using heq
          refine Or.inr ⟨hkk.trans hk1, Or.inl ⟨g1, ?_, hgg⟩⟩
          rw [← hk1]
          exact List.mem_cons_self _ _
        · by_cases hk : k = k0
          · have hkmem : k ∈ rest.map Prod.fst :=
              List.mem_map_of_mem Prod.fst hmem'
            have hmm : k1 ∈ rest.map Prod.fst := by
              rw [hk1, ← hk]
              exact hkmem
            exact absurd hmm hk1nin
          · exact Or.inl ⟨hk, List.mem_cons_of_mem _ hmem'⟩
      · rintro (⟨hk, hmem⟩ | ⟨hkk0, hcase⟩)
        · rcases List.mem_cons.mp hmem with heq | hmem'
          · have hkk : k = k1 := by
              simpa [Prod.ext_iff] using congrArg Prod.fst heq
            exact absurd (hkk.trans hk1) hk
          · exact List.mem_cons_of_mem _ hmem'
        · rcases hcase with ⟨g0, hg0, hgg⟩ | ⟨hnin, hgg⟩
          · rcases List.mem_cons.mp hg0 with heq | hmem'
            · obtain ⟨hk01, hg01⟩ : k0 = k1 ∧ g0 = g1 := by
                simpa [Prod.ext_iff] using heq
              refine List.mem_cons.mpr (Or.inl ?_)
              rw [Prod.ext_iff]
              exact ⟨by simp [hkk0, hk01], by simp [hgg, hg01]⟩
            · have hmm : k1 ∈ rest.map Prod.fst := by
                rw [hk1]
                exact List.mem_map_of_mem Prod.fst hmem'
              exact absurd hmm hk1nin
          · refine absurd ?_ hnin
            rw [← hk1]
            simp
    · simp only [addToGroups, if_neg hk1]
      constructor
      · intro hmem
        rcases List.mem_cons.mp hmem with heq | hmem'
        · obtain ⟨hkk, hgg⟩ : k = k1 ∧ g = g1 := by
            simpa [Prod.ext_iff] using heq
          exact Or.inl ⟨fun hc => hk1 (hkk.symm.trans hc),
            List.mem_cons.mpr (Or.inl heq)⟩
        · rcases (ih hnd').mp hmem' with ⟨hk, hmem''⟩ | ⟨hkk0, hcase⟩
          · exact Or.inl ⟨hk, List.mem_cons_of_mem _ hmem''⟩
          · refine Or.inr ⟨hkk0, ?_⟩
            rcases hcase with ⟨g0, hg0, hgg⟩ | ⟨hnin, hgg⟩
            · exact Or.inl ⟨g0, List.mem_cons_of_mem _ hg0, hgg⟩
            · refine Or.inr ⟨?_, hgg⟩
              rw [List.map_cons, List.mem_cons]
              rintro (h | h)
              · exact hk1 h.symm
              · exact hnin h
      · rintro (⟨hk, hmem⟩ | ⟨hkk0, hcase⟩)
        · rcases List.mem_cons.mp hmem with heq | hmem'
          · exact List.mem_cons.mpr (Or.inl heq)
          · exact List.mem_cons_of_mem _ ((ih hnd').mpr (Or.inl ⟨hk, hmem'⟩))
        · rcases hcase with ⟨g0, hg0, hgg⟩ | ⟨hnin, hgg⟩
          · rcases List.mem_cons.mp hg0 with heq | hmem'
            · have hk01 : k0 = k1 := by
                simpa [Prod.ext_iff] using congrArg Prod.fst heq
              exact absurd hk01.symm hk1
            · exact List.mem_cons_of_mem _
                ((ih hnd').mpr (Or.inr ⟨hkk0, Or.inl ⟨g0, hmem', hgg⟩⟩))
          · have hnin' : k0 ∉ rest.map Prod.fst := fun h =>
              hnin (List.mem_cons_of_mem _ h)
            exact List.mem_cons_of_mem _
              ((ih hnd').mpr (Or.inr ⟨hkk0, Or.inr ⟨hnin', hgg⟩⟩))

/-- Processing one more message folds into one `addToGroups` step. -/
lemma groupByKey_append (msgs : List (Nat × Mail)) (p : Nat × Mail) :
    groupByKey (msgs ++ [p]) =
      addToGroups (groupByKey msgs) (getDuplicateKey p.2) p := by
  simp [groupByKey, List.foldl_append]

/-- The `duplicate_groups` dictionary characterised: its keys are
distinct, and its entry at key `k` is exactly the sublist of messages
whose duplicate key is `k` (present iff non-empty). -/
lemma groupByKey_char (msgs : List (Nat × Mail)) :
    ((groupByKey msgs).map Prod.fst).Nodup ∧
    ∀ k g, ((k, g) ∈ groupByKey msgs ↔
      (g = msgs.filter (fun q => decide (getDuplicateKey q.2 = k)) ∧
        g ≠ [])) := by
  induction msgs using List.reverseRecOn with
  | nil =>
    refine ⟨by simp [groupByKey], fun k g => ?_⟩
    constructor
    · intro h
      exact absurd h (List.not_mem_nil _)
    · rintro ⟨rfl, hne⟩
      exact absurd rfl hne
  | append_singleton msgs p ih =>
    obtain ⟨ihnd, ihch⟩ := ih
    rw [groupByKey_append]
    have hkeys : ∀ k : String, k ∈ (groupByKey msgs).map Prod.fst ↔
        msgs.filter (fun q => decide (getDuplicateKey q.2 = k)) ≠ [] := by
      intro k
      constructor
      · intro hm
        rcases List.mem_map.mp hm with ⟨⟨k', g'⟩, hmem', hfst⟩
        obtain rfl : k' = k := hfst
        obtain ⟨hg', hne⟩ := (ihch _ _).mp hmem'
        rw [← hg']
        exact hne
      · intro hne
        exact List.mem_map_of_mem Prod.fst ((ihch k _).mpr ⟨rfl, hne⟩)
    constructor
    · rw [addToGroups_keys]
      by_cases hmem : getDuplicateKey p.2 ∈ (groupByKey msgs).map Prod.fst
      · rw [if_pos hmem]
        exact ihnd
      · rw [if_neg hmem]
        rw [List.nodup_append]
        refine ⟨ihnd, List.nodup_singleton _, fun a ha hb => ?_⟩
        rw [List.mem_singleton] at hb
        subst hb
        exact hmem ha
    · intro k g
      rw [mem_addToGroups _ _ _ _ _ ihnd, List.filter_append]
      by_cases hk : k = getDuplicateKey p.2
      · subst hk
        have hfp : List.filter
            (fun q => decide (getDuplicateKey q.2 = getDuplicateKey p.2)) [p] =
            [p] := by simp
        rw [hfp]
        constructor
        · rintro (⟨hne, _⟩ | ⟨_, hcase⟩)
          · exact absurd rfl hne
          · rcases hcase with ⟨g0, hg0, rfl⟩ | ⟨hnin, rfl⟩
            · obtain ⟨rfl, _⟩ := (ihch _ _).mp hg0
              exact ⟨rfl, by simp⟩
            · have hfil : msgs.filter
                  (fun q => decide (getDuplicateKey q.2 = getDuplicateKey p.2)) =
                  [] := by
                by_contra hcon
                exact hnin ((hkeys _).mpr hcon)
              rw [hfil]
              exact ⟨rfl, by simp⟩
        · rintro ⟨rfl, _⟩
          refine Or.inr ⟨rfl, ?_⟩
          by_cases hfil : msgs.filter
              (fun q => decide (getDuplicateKey q.2 = getDuplicateKey p.2)) = []
          · refine Or.inr ⟨fun hmk => (hkeys _).mp hmk hfil, ?_⟩
            simp [hfil]
          · exact Or.inl ⟨_, (ihch _ _).mpr ⟨rfl, hfil⟩, rfl⟩
      · have hfp : List.filter
            (fun q => decide (getDuplicateKey q.2 = k)) [p] = [] := by
          simp only [List.filter_cons, List.filter_nil]
          rw [if_neg]
          simp only [decide_eq_true_eq]
          exact fun h => hk h.symm
        rw [hfp, List.append_nil]
        constructor
        · rintro (⟨_, hmem⟩ | ⟨heq, _⟩)
          · exact (ihch _ _).mp hmem
          · exact absurd heq hk
        · intro h
          exact Or.inl ⟨hk, (ihch _ _).mpr h⟩

/-- **C5.**  `DuplicateCriterion.filter` groups the fetched messages by
the derived duplicate key and returns, from every group with more than
one member, every id except the smallest: for distinct server ids, an
id is returned iff some other fetched message has the same key and a
smaller id.  In particular `[1: Message-ID A, 2: Message-ID A,
3: Message-ID B]` yields exactly `[2]`, and an empty folder yields the
empty result. -/
theorem duplicate_detection :
    (∀ conn : Conn, (conn.searchFn [QueryItem.atom "ALL"]).Nodup →
      ∀ i, (i ∈ DuplicateCriterion.filter conn ↔
        ∃ m j m', (i, m) ∈ getMail conn [QueryItem.atom "ALL"] ∧
          (j, m') ∈ getMail conn [QueryItem.atom "ALL"] ∧
          getDuplicateKey m' = getDuplicateKey m ∧ j < i)) ∧
    DuplicateCriterion.filter exConn = [2] ∧
    DuplicateCriterion.filter emptyConn = [] := by
  refine ⟨?_, by decide, by decide⟩
  intro conn hnd i
  have hnodup : ((getMail conn [QueryItem.atom "ALL"]).map Prod.fst).Nodup :=
    getMail_ids_nodup hnd
  obtain ⟨hgnd, hgch⟩ := groupByKey_char (getMail conn [QueryItem.atom "ALL"])
  have hfil : DuplicateCriterion.filter conn =
      (groupByKey (getMail conn [QueryItem.atom "ALL"])).flatMap
        (fun kg => if 1 < kg.2.length
          then ((sortById kg.2).drop 1).map Prod.fst else []) := by
    unfold DuplicateCriterion.filter
    by_cases hemp : (getMail conn [QueryItem.atom "ALL"]).isEmpty = true
    · rw [if_pos hemp]
      rw [List.isEmpty_iff.mp hemp]
      rfl
    · rw [if_neg hemp]
  rw [hfil, List.mem_flatMap]
  constructor
  · rintro ⟨⟨k, g⟩, hmem, hi⟩
    by_cases hlen : 1 < g.length
    case neg =>
      rw [if_neg hlen] at hi
      exact absurd hi (List.not_mem_nil _)
    rw [if_pos hlen] at hi
    obtain ⟨hg, hgne⟩ := (hgch k g).mp hmem
    have hperm : List.Perm (sortById g) g := List.perm_insertionSort idLE g
    have hsorted : List.Sorted idLE (sortById g) :=
      List.sorted_insertionSort idLE g
    have hsub : List.Sublist g (getMail conn [QueryItem.atom "ALL"]) := by
      rw [hg]
      exact List.filter_sublist _
    have hgnodup : (g.map Prod.fst).Nodup := hnodup.sublist (hsub.map Prod.fst)
    have hsortnodup : ((sortById g).map Prod.fst).Nodup :=
      ((hperm.map Prod.fst).nodup_iff).mpr hgnodup
    rcases hsort : sortById g with _ | ⟨h0, t⟩
    · rw [hsort] at hperm
      exact absurd hperm.symm.eq_nil hgne
    rw [hsort] at hi hsorted hsortnodup hperm
    have hi' : i ∈ t.map Prod.fst := by simpa using hi
    rcases List.mem_map.mp hi' with ⟨⟨pi1, pi2⟩, hpi, hfst⟩
    have hpi1 : pi1 = i := hfst
    obtain ⟨j0, m0⟩ := h0
    have hh0g : (j0, m0) ∈ g := hperm.mem_iff.mp (List.mem_cons_self _ _)
    have hpig : (pi1, pi2) ∈ g := hperm.mem_iff.mp (List.mem_cons_of_mem _ hpi)
    have hle : j0 ≤ pi1 := List.rel_of_sorted_cons hsorted _ hpi
    have hne : j0 ≠ i := by
      intro hcon
      rw [List.map_cons] at hsortnodup
      have hnin := (List.nodup_cons.mp hsortnodup).1
      rw [hcon] at hnin
      exact hnin hi'
    have hlt : j0 < i := lt_of_le_of_ne (by rw [← hpi1]; exact hle) hne
    have hkey_pi : getDuplicateKey pi2 = k := by
      rw [hg] at hpig
      simpa using (List.mem_filter.mp hpig).2
    have hkey_h0 : getDuplicateKey m0 = k := by
      rw [hg] at hh0g
      simpa using (List.mem_filter.mp hh0g).2
    refine ⟨pi2, j0, m0, ?_, hsub.subset hh0g, by rw [hkey_h0, hkey_pi], hlt⟩
    rw [← hpi1]
    exact hsub.subset hpig
  · rintro ⟨m, j, m', him, hjm, hkey, hji⟩
    set G := (getMail conn [QueryItem.atom "ALL"]).filter
        (fun q => decide (getDuplicateKey q.2 = getDuplicateKey m)) with hG
    have hmf : (i, m) ∈ G := List.mem_filter.mpr ⟨him, by simp⟩
    have hm'f : (j, m') ∈ G := List.mem_filter.mpr ⟨hjm, by simp [hkey]⟩
    have hgne : G ≠ [] := by
      intro hcon
      rw [hcon] at hmf
      exact absurd hmf (List.not_mem_nil _)
    have hgmem : (getDuplicateKey m, G) ∈
        groupByKey (getMail conn [QueryItem.atom "ALL"]) :=
      (hgch _ _).mpr ⟨hG, hgne⟩
    refine ⟨(getDuplicateKey m, G), hgmem, ?_⟩
    have hlen : 1 < G.length := by
      rcases hGl : G with _ | ⟨x, xs⟩
      · rw [hGl] at hmf
        exact absurd hmf (List.not_mem_nil _)
      · rcases xs with _ | ⟨y, ys⟩
        · rw [hGl] at hmf hm'f
          have h1 : (i, m) = x := List.mem_singleton.mp hmf
          have h2 : (j, m') = x := List.mem_singleton.mp hm'f
          have hij : i = j := by
            simpa [Prod.ext_iff] using congrArg Prod.fst (h1.trans h2.symm)
          omega
        · simp
    show i ∈ if 1 < G.length then ((sortById G).drop 1).map Prod.fst else []
    rw [if_pos hlen]
    have hperm : List.Perm (sortById G) G := List.perm_insertionSort idLE G
    have hsorted : List.Sorted idLE (sortById G) :=
      List.sorted_insertionSort idLE G
    rcases hsort : sortById G with _ | ⟨h0, t⟩
    · rw [hsort] at hperm
      exact absurd hperm.symm.eq_nil hgne
    rw [hsort] at hperm hsorted
    have him' : (i, m) ∈ h0 :: t := hperm.mem_iff.mpr hmf
    have hjm' : (j, m') ∈ h0 :: t := hperm.mem_iff.mpr hm'f
    have hh0j : h0.1 ≤ j := by
      rcases List.mem_cons.mp hjm' with heq | hmem
      · rw [← heq]
      · exact List.rel_of_sorted_cons hsorted _ hmem
    have hne : (i, m) ≠ h0 := by
      intro hcon
      rw [← hcon] at hh0j
      have hij : i ≤ j := hh0j
      omega
    have hit : (i, m) ∈ t := by
      rcases List.mem_cons.mp him' with heq | hm2
      · exact absurd heq hne
      · exact hm2
    have hmem : i ∈ t.map Prod.fst := List.mem_map_of_mem Prod.fst hit
    simpa using hmem

/-- **C5 witness.**  The characterisation applied to the concrete
three-message mailbox at id 2. -/
theorem duplicate_detection_witness :
    2 ∈ DuplicateCriterion.filter exConn ↔
      ∃ m j m', ((2 : Nat), m) ∈ getMail exConn [QueryItem.atom "ALL"] ∧
        (j, m') ∈ getMail exConn [QueryItem.atom "ALL"] ∧
        getDuplicateKey m' = getDuplicateKey m ∧ j < 2 :=
  duplicate_detection.1 exConn (by decide) 2

/-- **C8.**  `(A1 & A2).execute(account, ids)` issues `A1`'s calls on
the full id list, then `A2`'s calls on the same full list; in
particular `(MarkAsRead() & MoveTo("X"))` on `[1, 2, 3]` issues one
`add_flags` call for the whole batch followed by one `move` call for
the whole batch. -/
theorem action_chaining_batches :
    (∀ (a1 a2 : Action) (account : EMailAccount) (ids : List Nat),
      (a1.and a2).execute account ids =
        a1.execute account ids ++ a2.execute account ids) ∧
    (∀ account : EMailAccount,
      (MarkAsRead.and (MoveTo "X")).execute account [1, 2, 3] =
        [MailOp.addFlags [1, 2, 3] ["\\Seen"], MailOp.move [1, 2, 3] "X"]) :=
  ⟨fun _ _ _ _ => rfl, fun _ => rfl⟩

/-- **C10.**  `h1 + h2` invokes `h1`'s callback and then `h2`'s
callback on the identical response batch, and its monitored account and
folder are exactly `h1`'s — `h2`'s account and folder are discarded. -/
theorem handler_addition (α : Type) (h1 h2 : EventsHandler α)
    (responses : IdleResponse) :
    (h1.add h2).handle responses = h1.handle responses ++ h2.handle responses ∧
    (h1.add h2).account = h1.account ∧
    (h1.add h2).folder = h1.folder :=
  ⟨rfl, rfl, rfl⟩

end ImapThingy
